import Mathlib

set_option maxHeartbeats 1000000

/- Shallow embedding of src/app.py (nutrition label generator).
   Python strings are modelled as lists of characters, Python floats as
   rationals (with the float NaN as an explicit constructor of PyVal),
   and Python code that can raise returns Except. -/

/-- Python strings are modelled as lists of characters. -/
abbrev PyStr := List Char

/-- A Python value stored in a nutrient record or a DataFrame cell:
a finite float (modelled as a rational), the float NaN, or a string. -/
inductive PyVal where
  | num (q : ℚ)
  | nan
  | str (s : PyStr)
deriving DecidableEq

/-- Python exceptions that the embedded code can raise. -/
inductive PyErr where
  | typeError
  | valueError
  | keyError
deriving DecidableEq

instance exceptDecEq {ε α : Type _} [DecidableEq ε] [DecidableEq α] :
    DecidableEq (Except ε α) := fun
  | .ok a, .ok b => decidable_of_iff (a = b) ⟨fun h => h ▸ rfl, fun h => by injection h⟩
  | .ok _, .error _ => isFalse fun h => by injection h
  | .error _, .ok _ => isFalse fun h => by injection h
  | .error e, .error f => decidable_of_iff (e = f) ⟨fun h => h ▸ rfl, fun h => by injection h⟩

/-- Model of pandas.isna: true exactly on the float NaN. -/
def pdIsna : PyVal → Bool
  | .nan => true
  | _ => false

/-- Model of Python str.strip with no arguments: remove leading and trailing
whitespace. -/
def pyStrip (s : PyStr) : PyStr :=
  ((s.dropWhile Char.isWhitespace).reverse.dropWhile Char.isWhitespace).reverse

/-- Model of Python str.split with no separator: the maximal runs of
non-whitespace characters, in order. The accumulator holds the reversed
current run. -/
def pySplitAux : List Char → List Char → List PyStr
  | [], cur => if cur = [] then [] else [cur.reverse]
  | c :: cs, cur =>
    if c.isWhitespace then
      if cur = [] then pySplitAux cs []
      else cur.reverse :: pySplitAux cs []
    else pySplitAux cs (c :: cur)

/-- Model of Python str.split with no separator. -/
def pySplit (s : PyStr) : List PyStr := pySplitAux s []

/-- Model of Python str.rstrip applied to a single character: remove trailing
copies of that character. -/
def pyRstrip (s : PyStr) (c : Char) : PyStr := (s.reverse.dropWhile (· = c)).reverse

/-- Decimal digit string of a natural number, fuel-structured so that the
kernel can evaluate it; the fuel n + 1 always suffices. -/
def natCharsAux : ℕ → ℕ → List Char
  | 0, _ => []
  | fuel+1, n =>
    if n < 10 then [Nat.digitChar n]
    else natCharsAux fuel (n / 10) ++ [Nat.digitChar (n % 10)]

/-- Model of Python str on a nonnegative integer: its decimal digits. -/
def natChars (n : ℕ) : PyStr := natCharsAux (n + 1) n

/-- Model of Python str on an integer: decimal digits with a minus sign when
negative. -/
def intChars (i : ℤ) : PyStr :=
  if i < 0 then '-' :: natChars i.natAbs else natChars i.natAbs

/-- Round half to even, the rounding used by Python float formatting. -/
def rhte (q : ℚ) : ℤ :=
  let f := ⌊q⌋
  let frac := q - (f : ℚ)
  if frac < 1/2 then f
  else if 1/2 < frac then f + 1
  else if f % 2 = 0 then f else f + 1

/-- Model of Python int applied to a float: truncation toward zero. -/
def pyIntTrunc (q : ℚ) : ℤ := if 0 ≤ q then ⌊q⌋ else ⌈q⌉

/-- Model of the Python format specifier .1f: the value rounded half to even
to one decimal place, printed with exactly one digit after the decimal point
and a minus sign taken from the sign of the input. -/
def fmtOneDec (q : ℚ) : PyStr :=
  (if q < 0 then ['-'] else []) ++ natChars ((rhte (q * 10)).natAbs / 10) ++
    '.' :: natChars ((rhte (q * 10)).natAbs % 10)

/-- Python dict lookup on an association list (dict literals in the source
never bind a key twice, so first match is the binding). -/
def pyLookup {α : Type _} : List (PyStr × α) → PyStr → Option α
  | [], _ => none
  | (k', v) :: rest, k => if k' = k then some v else pyLookup rest k

/-- The %DV reference table Config.DAILY_VALUES from src/app.py as a list of
bindings. -/
def DAILY_VALUES_TABLE : List (PyStr × ℕ) :=
  [("Energy".toList, 2000),
   ("Total Fat".toList, 78),
   ("Saturated Fat".toList, 20),
   ("Cholesterol".toList, 300),
   ("Sodium(mg)".toList, 2300),
   ("Total Carbohydrate".toList, 275),
   ("Dietary Fiber".toList, 28),
   ("Added Sugars".toList, 50),
   ("Protein".toList, 50),
   ("Vitamin D".toList, 20),
   ("Calcium".toList, 1300),
   ("Iron".toList, 18),
   ("Potassium".toList, 4700)]

/-- The dict get of Config.DAILY_VALUES in src/app.py. -/
def DAILY_VALUES (key : PyStr) : Option ℕ := pyLookup DAILY_VALUES_TABLE key

/-- Python truth of the comparison value == 0: true only for the number zero
(NaN and strings compare unequal to 0 without raising). -/
def pyEqZero : PyVal → Bool
  | .num q => decide (q = 0)
  | _ => false

/-- NutritionLabelGenerator.format_value from src/app.py. The source takes a
unit argument that it never uses, so it is omitted here. -/
def format_value (value : PyVal) : PyStr :=
  if pdIsna value then "0".toList
  else if pyEqZero value then "0".toList
  else
    match value with
    | .num q =>
        if (q : ℚ) = (pyIntTrunc q : ℚ) then intChars (pyIntTrunc q)
        else pyRstrip (pyRstrip (fmtOneDec q) '0') '.'
    | .str s => s
    | .nan => "0".toList

/-- Python truth of the comparison value <= 0: comparing a string with an
integer raises TypeError, and NaN <= 0 is false. -/
def pyLeZero : PyVal → Except PyErr Bool
  | .num q => .ok (decide (q ≤ 0))
  | .nan => .ok false
  | .str _ => .error .typeError

/-- The numeric content of a PyVal; only consulted on numbers. -/
def pyNumOf : PyVal → ℚ
  | .num q => q
  | _ => 0

/-- The string drawn for a positive percentage: below one percent it is
"<1%", otherwise the percentage rounded half to even with a percent sign. -/
def percentStr (percent : ℚ) : PyStr :=
  if percent < 1 then "<1%".toList
  else intChars (rhte percent) ++ ['%']

/-- NutritionLabelGenerator.calculate_percent_dv from src/app.py; the local
key = nutrient.strip() of the source is inlined as pyStrip nutrient. -/
def calculate_percent_dv (nutrient : PyStr) (value : PyVal) : Except PyErr PyStr :=
  match DAILY_VALUES (pyStrip nutrient) with
  | none => .ok []
  | some dv =>
    if dv = 0 then .ok []
    else if pdIsna value then .ok []
    else
      match pyLeZero value with
      | .error e => .error e
      | .ok true => .ok []
      | .ok false => .ok (percentStr (pyNumOf value / (dv : ℚ) * 100))

/-- Inject an optional rational amount into PyVal, reading none as NaN. -/
def ofOpt : Option ℚ → PyVal
  | none => .nan
  | some q => .num q

/-- The Value Formatter contract for percentDailyValue as worded in the spec,
section 4.1: look the trimmed key up in the reference table, return the empty
string when no reference value exists or the amount is absent or nonpositive,
otherwise compute amount / reference * 100 and render it as "<1%" when below
one, else rounded (half to even) to the nearest integer percent with a
trailing percent sign. -/
def percentDailyValue_spec (key : PyStr) (amount : Option ℚ) : PyStr :=
  match DAILY_VALUES (pyStrip key), amount with
  | none, _ => []
  | some _, none => []
  | some ref, some a =>
    if a ≤ 0 then []
    else
      let percent := a / (ref : ℚ) * 100
      if percent < 1 then "<1%".toList
      else intChars (rhte percent) ++ ['%']

/-- NutritionLabelGenerator.wrap_text from src/app.py. The canvas measurement
c.stringWidth at the fixed font name and size is abstracted as the function
widthOf; current is the loop accumulator current_line, initially empty. -/
def wrapAux (widthOf : PyStr → ℚ) (maxW : ℚ) : List PyStr → PyStr → List PyStr
  | [], current => if current = [] then [] else [current]
  | w :: ws, current =>
    let test := pyStrip (current ++ ' ' :: w)
    if widthOf test ≤ maxW then wrapAux widthOf maxW ws test
    else if current = [] then wrapAux widthOf maxW ws w
    else current :: wrapAux widthOf maxW ws w

/-- NutritionLabelGenerator.wrap_text from src/app.py. -/
def wrap_text (widthOf : PyStr → ℚ) (text : PyStr) (maxW : ℚ) : List PyStr :=
  wrapAux widthOf maxW (pySplit text) []

/-- The design parameter set, with the keys of get_default_design_params in
src/app.py. -/
structure DesignParams where
  width : ℚ
  height : ℚ
  line_thick : ℚ
  line_thin : ℚ
  font_header : ℚ
  font_subheader : ℚ
  font_nutrient : ℚ
  font_footnote : ℚ
  header_spacing : ℚ
  nutrient_leading : ℚ
  thick_spacing : ℚ
  thin_offset : ℚ
  nutrients_gap : ℚ
  footnote_start : ℚ
  footnote_spacing : ℚ

/-- The named vertical anchors computed once per render. -/
structure Positions where
  header : ℚ
  header_sep : ℚ
  serving : ℚ
  serving_note : ℚ
  serving_sep : ℚ
  energy : ℚ
  energy_sep : ℚ
  nutrients_start : ℚ

/-- NutritionLabelGenerator._calculate_positions from src/app.py. -/
def calculate_positions (p : DesignParams) : Positions :=
  let header := p.height - 10 - p.font_header
  let header_sep := header - p.thick_spacing
  let serving := header_sep - 20
  let serving_note := serving - 12
  let serving_sep := serving_note - 6
  let energy := serving_sep - 20
  let energy_sep := energy - p.thick_spacing
  let nutrients_start := energy_sep - p.nutrients_gap
  { header, header_sep, serving, serving_note, serving_sep, energy,
    energy_sep, nutrients_start }

/-- The fixed nutrient row order of _draw_nutrients in src/app.py. -/
def nutrient_order : List PyStr :=
  ["Total Fat".toList, "  Saturated Fat".toList, "   Trans Fat".toList,
   "Cholesterol".toList, "Sodium(mg)".toList, "Total Carbohydrate".toList,
   "  Dietary Fiber".toList, "  Total Sugars".toList, "   Added Sugars".toList,
   "Protein".toList, "Vitamin D".toList, "Calcium".toList, "Iron".toList,
   "Potassium".toList]

/-- A nutrient record: an association list from key to stored value, looked
up like a Python dict; prepare_data never binds a key twice. -/
abbrev Record := List (PyStr × PyVal)

/-- Model of Python str.replace for a nonempty pattern (left to right,
non-overlapping), fuel-structured on the length of the scanned string. -/
def pyReplaceAux (pat repl : PyStr) : ℕ → PyStr → PyStr
  | 0, s => s
  | _+1, [] => []
  | fuel+1, c :: cs =>
    if pat ≠ [] ∧ pat.isPrefixOf (c :: cs) then
      repl ++ pyReplaceAux pat repl fuel (List.drop pat.length (c :: cs))
    else c :: pyReplaceAux pat repl fuel cs

/-- Model of Python str.replace; the fuel s.length always suffices. -/
def pyReplace (s pat repl : PyStr) : PyStr := pyReplaceAux pat repl s.length s

/-- The unit suffix chosen per nutrient key in _draw_nutrients. -/
def unitFor (nutrient : PyStr) : PyStr :=
  if nutrient ∈ ["Cholesterol".toList, "Sodium(mg)".toList, "Calcium".toList,
                 "Iron".toList, "Potassium".toList] then "mg".toList
  else if nutrient = "Vitamin D".toList then "mcg".toList
  else "g".toList

/-- One drawn nutrient row: the left label, the formatted amount inside it,
and the %DV string drawn at the right (empty when none is drawn). -/
structure RowOut where
  label : PyStr
  valStr : PyStr
  percent : PyStr
deriving DecidableEq

/-- The body of the row loop of _draw_nutrients for one nutrient key: none
when the row is skipped (the key is missing from the record, or its value is
NaN), an error when calculate_percent_dv raises. -/
def rowFor (data : Record) (nutrient : PyStr) : Except PyErr (Option RowOut) :=
  match pyLookup data nutrient with
  | none => .ok none
  | some v =>
    if pdIsna v then .ok none
    else
      let val_str := format_value v
      let clean_name := pyReplace nutrient "(mg)".toList []
      match calculate_percent_dv nutrient v with
      | .error e => .error e
      | .ok percent =>
        .ok (some { label := clean_name ++ ' ' :: (val_str ++ unitFor nutrient),
                    valStr := val_str, percent := percent })

/-- The row loop of _draw_nutrients over a given key list. -/
def drawnRowsAux (data : Record) : List PyStr → Except PyErr (List RowOut)
  | [] => .ok []
  | k :: ks =>
    match rowFor data k with
    | .error e => .error e
    | .ok none => drawnRowsAux data ks
    | .ok (some row) =>
      match drawnRowsAux data ks with
      | .error e => .error e
      | .ok rows => .ok (row :: rows)

/-- The nutrient rows drawn by _draw_nutrients, in the fixed order. -/
def drawnRows (data : Record) : Except PyErr (List RowOut) :=
  drawnRowsAux data nutrient_order

/-- Model of Python float applied to a record value: numbers convert to
themselves and strings go through the given parser, raising ValueError when
it fails. The NaN case is never consulted: every call site in prepare_data
is guarded by a pd.notna check. -/
def pyFloat (parseFloat : PyStr → Option ℚ) : PyVal → Except PyErr ℚ
  | .num q => .ok q
  | .nan => .ok 0
  | .str s =>
    match parseFloat s with
    | some q => .ok q
    | none => .error .valueError

/-- One required numeric field of prepare_data: the Python expression
float(row[k]) if pd.notna(row[k]) else 0, with row[k] raising KeyError when
the column is absent. -/
def reqField (parseFloat : PyStr → Option ℚ) (row : PyStr → Option PyVal)
    (k : PyStr) : Except PyErr ℚ :=
  match row k with
  | none => .error .keyError
  | some v => if pdIsna v then .ok 0 else pyFloat parseFloat v

/-- The required nutrient entries of prepare_data: the record key (with the
indentation that _draw_nutrients expects) paired with the DataFrame column
it is read from. -/
def requiredNutrientColumns : List (PyStr × PyStr) :=
  [("Energy".toList, "Energy".toList),
   ("Total Fat".toList, "Total Fat".toList),
   ("  Saturated Fat".toList, "Saturated Fat".toList),
   ("   Trans Fat".toList, "Trans Fat".toList),
   ("Cholesterol".toList, "Cholesterol".toList),
   ("Sodium(mg)".toList, "Sodium(mg)".toList),
   ("Total Carbohydrate".toList, "Total Carbohydrate".toList),
   ("  Dietary Fiber".toList, "Dietary Fiber".toList),
   ("  Total Sugars".toList, "Total Sugars".toList),
   ("   Added Sugars".toList, "Added Sugars".toList),
   ("Protein".toList, "Protein".toList)]

/-- The record keys of the required nutrient entries of prepare_data. -/
def requiredNutrientKeys : List PyStr := requiredNutrientColumns.map Prod.fst

/-- The required numeric entries of the record, in dict-literal order. -/
def requiredEntries (parseFloat : PyStr → Option ℚ) (row : PyStr → Option PyVal) :
    List (PyStr × PyStr) → Except PyErr Record
  | [] => .ok []
  | (k, col) :: rest =>
    match reqField parseFloat row col with
    | .error e => .error e
    | .ok q =>
      match requiredEntries parseFloat row rest with
      | .error e => .error e
      | .ok tail => .ok ((k, .num q) :: tail)

/-- The optional nutrient list of prepare_data. -/
def optional_nutrients : List PyStr :=
  ["Vitamin D".toList, "Calcium".toList, "Iron".toList, "Potassium".toList]

/-- The optional nutrient loop of prepare_data: a key is added only when the
column exists and its value is not NaN. -/
def optionalEntries (parseFloat : PyStr → Option ℚ) (row : PyStr → Option PyVal) :
    List PyStr → Except PyErr Record
  | [] => .ok []
  | k :: rest =>
    match row k with
    | none => optionalEntries parseFloat row rest
    | some v =>
      if pdIsna v then optionalEntries parseFloat row rest
      else
        match pyFloat parseFloat v with
        | .error e => .error e
        | .ok q =>
          match optionalEntries parseFloat row rest with
          | .error e => .error e
          | .ok tail => .ok ((k, .num q) :: tail)

/-- The default primary footnote text in prepare_data and _draw_footnotes. -/
def defaultFootnote : PyStr :=
  ("* The % Daily Value (DV) tells you how much a nutrient in a serving " ++
   "of food contributes to a daily diet. 2,000 calories a day is used " ++
   "for general nutrition advice.").toList

/-- The default secondary footnote text in prepare_data. -/
def defaultFootnote2 : PyStr :=
  ("* Values are approximate and based on standard food composition tables. " ++
   "Actual values may vary.").toList

/-- prepare_data from src/app.py. The conversions Python performs through
float() on strings and str() on arbitrary values are abstracted as the
parameters parseFloat and strOf; the row is a partial mapping from column
name to cell value, with an absent column raising KeyError on required
access. -/
def prepare_data (parseFloat : PyStr → Option ℚ) (strOf : PyVal → PyStr)
    (row : PyStr → Option PyVal) : Except PyErr Record :=
  match row "Serving Size".toList with
  | none => .error .keyError
  | some sv =>
    match requiredEntries parseFloat row requiredNutrientColumns with
    | .error e => .error e
    | .ok req =>
      match optionalEntries parseFloat row optional_nutrients with
      | .error e => .error e
      | .ok opt =>
        let fn1 := (row "Footnote".toList).getD (.str defaultFootnote)
        let fn2 := (row "Footnote2".toList).getD (.str defaultFootnote2)
        .ok (("Serving Size".toList, .str (strOf sv)) :: req ++ opt ++
          [("Footnote".toList, fn1), ("Footnote2".toList, fn2)])

/-- A concrete all-numeric row used as a witness input. -/
def rowW : PyStr → Option PyVal := fun _ => some (.num 1)

/-- The record prepare_data builds from the witness row. -/
def recW : Record :=
  ((prepare_data (fun _ => none) (fun _ => []) rowW).toOption).getD []

/-- The batch format choice of create_batch_labels. -/
inductive FormatType where
  | pdf
  | png
  | both
deriving DecidableEq

/-- The per-product filename sanitizer of create_batch_labels. -/
def sanitizeName (product : PyStr) : PyStr :=
  pyStrip (product.filter fun c => c.isAlphanum || c = ' ' || c = '-' || c = '_')

/-- The per-product body of create_batch_labels: the archive entries one
product contributes. getData covers the row lookup plus prepare_data, pdfOf
and pngOf the two generator calls; an exception from getData or from a
requested PDF is caught by the loop (warning, product skipped entirely, so
for format both a PDF failure also skips the PNG), while a PNG failure is
caught by its inner handler and only loses the PNG entry. -/
def processProduct {D B : Type _} (getData : PyStr → Except PyErr D)
    (pdfOf pngOf : D → Except PyErr B) (ft : FormatType) (product : PyStr) :
    List (PyStr × B) :=
  match getData product with
  | .error _ => []
  | .ok data =>
    let safe := sanitizeName product
    match ft with
    | .pdf =>
      match pdfOf data with
      | .error _ => []
      | .ok b => [(safe ++ ".pdf".toList, b)]
    | .png =>
      match pngOf data with
      | .error _ => []
      | .ok b => [(safe ++ ".png".toList, b)]
    | .both =>
      match pdfOf data with
      | .error _ => []
      | .ok b =>
        (safe ++ ".pdf".toList, b) ::
          (match pngOf data with
           | .error _ => []
           | .ok b2 => [(safe ++ ".png".toList, b2)])

/-- create_batch_labels from src/app.py: iterate the product list, collect
each product's archive entries in order and return the archive (modelled as
its list of named entries). The none result corresponds to the outer
exception handler, which only a zipfile backend failure could reach, never
the per-product loop. -/
def create_batch_labels {D B : Type _} (getData : PyStr → Except PyErr D)
    (pdfOf pngOf : D → Except PyErr B) (ft : FormatType)
    (products : List PyStr) : Option (List (PyStr × B)) :=
  some ((products.map (processProduct getData pdfOf pngOf ft)).flatten)

/-- All numeric design parameters are positive. -/
def PositiveParams (p : DesignParams) : Prop :=
  0 < p.width ∧ 0 < p.height ∧ 0 < p.line_thick ∧ 0 < p.line_thin ∧
  0 < p.font_header ∧ 0 < p.font_subheader ∧ 0 < p.font_nutrient ∧
  0 < p.font_footnote ∧ 0 < p.header_spacing ∧ 0 < p.nutrient_leading ∧
  0 < p.thick_spacing ∧ 0 < p.thin_offset ∧ 0 < p.nutrients_gap ∧
  0 < p.footnote_start ∧ 0 < p.footnote_spacing

/-- The default design parameters with the thin line width raised from its
default 0 to 1, so that every numeric field is positive. -/
def positiveDefaultParams : DesignParams :=
  { width := 270, height := 370, line_thick := 3, line_thin := 1,
    font_header := 27, font_subheader := 13, font_nutrient := 10,
    font_footnote := 7, header_spacing := 2, nutrient_leading := 17,
    thick_spacing := 8, thin_offset := 5, nutrients_gap := 33,
    footnote_start := 35, footnote_spacing := 8 }

/-- Rounding half to even is the identity on integers. -/
theorem rhte_intCast (n : ℤ) : rhte (n : ℚ) = n := by
  unfold rhte
  rw [Int.floor_intCast]
  norm_num

/-- Rounding half to even is the identity on natural numbers. -/
theorem rhte_natCast (n : ℕ) : rhte (n : ℚ) = n := by
  have := rhte_intCast (n : ℤ)
  push_cast at this
  exact this

/-- A successful dict lookup finds a binding of the list. -/
theorem pyLookup_mem {α : Type _} : ∀ (data : List (PyStr × α)) (k : PyStr) (v : α),
    pyLookup data k = some v → (k, v) ∈ data := by
  intro data
  induction data with
  | nil => intro k v h; simp [pyLookup] at h
  | cons kv rest ih =>
    intro k v h
    obtain ⟨k', v'⟩ := kv
    by_cases hk : k' = k
    · subst hk
      simp only [pyLookup, if_pos rfl] at h
      cases h
      exact List.mem_cons_self _ _
    · simp only [pyLookup, if_neg hk] at h
      exact List.mem_cons_of_mem _ (ih k v h)

/-- No entry of the reference table is zero. -/
theorem DAILY_VALUES_ne_zero (k : PyStr) (n : ℕ) (h : DAILY_VALUES k = some n) :
    n ≠ 0 := by
  have hmem := pyLookup_mem _ _ _ h
  have hall : ∀ p ∈ DAILY_VALUES_TABLE, p.2 ≠ 0 := by decide
  exact hall _ hmem

/-- Lookup skips a head binding with a different key. -/
theorem pyLookup_cons_ne {α : Type _} (k' : PyStr) (v' : α)
    (rest : List (PyStr × α)) (k : PyStr) (h : k' ≠ k) :
    pyLookup ((k', v') :: rest) k = pyLookup rest k := by
  simp [pyLookup, if_neg h]

/-- Lookup into an append finds what the left part finds. -/
theorem pyLookup_append_left {α : Type _} :
    ∀ (l₁ l₂ : List (PyStr × α)) (k : PyStr) (v : α),
    pyLookup l₁ k = some v → pyLookup (l₁ ++ l₂) k = some v := by
  intro l₁
  induction l₁ with
  | nil => intro l₂ k v h; simp [pyLookup] at h
  | cons kv rest ih =>
    intro l₂ k v h
    obtain ⟨k', v'⟩ := kv
    by_cases hk : k' = k
    · subst hk
      simp only [List.cons_append, pyLookup, if_pos rfl] at h ⊢
      exact h
    · simp only [List.cons_append, pyLookup, if_neg hk] at h ⊢
      exact ih l₂ k v h

/-- Claim C8: for every design parameter set whose numeric fields are all
positive, the anchors computed by _calculate_positions are strictly
decreasing in the order header, header_sep, serving, serving_note,
serving_sep, energy, energy_sep, nutrients_start. -/
theorem calculate_positions_strict_anti (p : DesignParams)
    (h : PositiveParams p) :
    (calculate_positions p).header_sep < (calculate_positions p).header ∧
    (calculate_positions p).serving < (calculate_positions p).header_sep ∧
    (calculate_positions p).serving_note < (calculate_positions p).serving ∧
    (calculate_positions p).serving_sep < (calculate_positions p).serving_note ∧
    (calculate_positions p).energy < (calculate_positions p).serving_sep ∧
    (calculate_positions p).energy_sep < (calculate_positions p).energy ∧
    (calculate_positions p).nutrients_start < (calculate_positions p).energy_sep := by
  obtain ⟨-, -, -, -, -, -, -, -, -, -, hthick, -, hgap, -, -⟩ := h
  simp only [calculate_positions]
  refine ⟨by linarith, by linarith, by linarith, by linarith, by linarith,
    by linarith, by linarith⟩

/-- Witness for C8 at the (positivised) default parameters. -/
theorem calculate_positions_strict_anti_witness :
    (calculate_positions positiveDefaultParams).header_sep <
      (calculate_positions positiveDefaultParams).header ∧
    (calculate_positions positiveDefaultParams).serving <
      (calculate_positions positiveDefaultParams).header_sep ∧
    (calculate_positions positiveDefaultParams).serving_note <
      (calculate_positions positiveDefaultParams).serving ∧
    (calculate_positions positiveDefaultParams).serving_sep <
      (calculate_positions positiveDefaultParams).serving_note ∧
    (calculate_positions positiveDefaultParams).energy <
      (calculate_positions positiveDefaultParams).serving_sep ∧
    (calculate_positions positiveDefaultParams).energy_sep <
      (calculate_positions positiveDefaultParams).energy ∧
    (calculate_positions positiveDefaultParams).nutrients_start <
      (calculate_positions positiveDefaultParams).energy_sep :=
  calculate_positions_strict_anti positiveDefaultParams
    (by norm_num [PositiveParams, positiveDefaultParams])

/-- Counterexample to claim C1: the reference table keys sodium under
"Sodium(mg)", so calculate_percent_dv applied to the key "Sodium" finds no
reference value and returns the empty string, not "100%" at amount 2300 and
not "<1%" at amount 10. -/
theorem percent_dv_sodium_counterexample :
    calculate_percent_dv "Sodium".toList (.num 2300) = .ok [] ∧
    calculate_percent_dv "Sodium".toList (.num 10) = .ok [] ∧
    "100%".toList ≠ ([] : PyStr) ∧ "<1%".toList ≠ ([] : PyStr) :=
  ⟨by decide, by decide, by decide, by decide⟩

/-- With a positive amount and a key that the table maps to a nonzero
reference value, calculate_percent_dv reduces to the percentage renderer. -/
theorem calculate_percent_dv_pos (nutrient : PyStr) (q : ℚ) (dv : ℕ)
    (hd : DAILY_VALUES (pyStrip nutrient) = some dv) (hdv : dv ≠ 0)
    (hq : 0 < q) :
    calculate_percent_dv nutrient (.num q) = .ok (percentStr (q / (dv : ℚ) * 100)) := by
  unfold calculate_percent_dv
  rw [hd]
  simp only [if_neg hdv]
  have hle : ¬ q ≤ 0 := not_le.mpr hq
  simp [pdIsna, pyLeZero, pyNumOf, hle]

/-- Claim C1 amended: with sodium's key spelled "Sodium(mg)" as in the
code's table, amount 2300 yields "100%" and amount 10 yields "<1%". -/
theorem percent_dv_sodium_mg :
    calculate_percent_dv "Sodium(mg)".toList (.num 2300) = .ok "100%".toList ∧
    calculate_percent_dv "Sodium(mg)".toList (.num 10) = .ok "<1%".toList := by
  constructor
  · rw [calculate_percent_dv_pos _ 2300 2300 (by decide) (by decide) (by norm_num)]
    have h100 : (2300 : ℚ) / (2300 : ℕ) * 100 = ((100 : ℕ) : ℚ) := by norm_num
    rw [h100]
    unfold percentStr
    rw [if_neg (by norm_num), rhte_natCast]
    decide
  · rw [calculate_percent_dv_pos _ 10 2300 (by decide) (by decide) (by norm_num)]
    unfold percentStr
    rw [if_pos (by norm_num)]

/-- Counterexample to claim C4: a batch of one product whose data
preparation fails produces no output for any record, yet
create_batch_labels still returns an archive (with zero entries) instead of
signalling an empty batch. -/
theorem create_batch_labels_empty_counterexample :
    processProduct (D := Unit) (B := Unit) (fun _ => .error .valueError)
        (fun _ => .ok ()) (fun _ => .ok ()) .pdf "A".toList = [] ∧
    create_batch_labels (D := Unit) (B := Unit) (fun _ => .error .valueError)
        (fun _ => .ok ()) (fun _ => .ok ()) .pdf ["A".toList] = some [] :=
  ⟨rfl, rfl⟩

/-- Claim C4 amended: create_batch_labels always returns an archive and
never signals an empty batch; the archive is nonempty exactly when some
record produced output, and is the empty archive when none did. -/
theorem create_batch_labels_total {D B : Type _} (getData : PyStr → Except PyErr D)
    (pdfOf pngOf : D → Except PyErr B) (ft : FormatType) (products : List PyStr) :
    ∃ entries, create_batch_labels getData pdfOf pngOf ft products = some entries ∧
      (entries ≠ [] ↔ ∃ p ∈ products, processProduct getData pdfOf pngOf ft p ≠ []) := by
  refine ⟨_, rfl, ?_⟩
  rw [ne_eq, List.flatten_eq_nil_iff]
  simp only [List.mem_map, not_forall]
  constructor
  · rintro ⟨l, ⟨p, hp, rfl⟩, hne⟩
    exact ⟨p, hp, hne⟩
  · rintro ⟨p, hp, hne⟩
    exact ⟨_, ⟨p, hp, rfl⟩, hne⟩

/-- calculate_percent_dv never raises on NaN: every key yields the empty
string. -/
theorem calculate_percent_dv_nan (key : PyStr) :
    calculate_percent_dv key .nan = .ok [] := by
  unfold calculate_percent_dv
  cases hd : DAILY_VALUES (pyStrip key) with
  | none => rfl
  | some dv =>
    by_cases h0 : dv = 0 <;> simp [h0, pdIsna]

/-- calculate_percent_dv never raises on a numeric amount. -/
theorem calculate_percent_dv_num_ok (nutrient : PyStr) (q : ℚ) :
    ∃ r, calculate_percent_dv nutrient (.num q) = .ok r := by
  unfold calculate_percent_dv
  cases hd : DAILY_VALUES (pyStrip nutrient) with
  | none => exact ⟨[], rfl⟩
  | some dv =>
    by_cases h0 : dv = 0
    · exact ⟨[], by simp [h0]⟩
    · by_cases hq : q ≤ 0
      · exact ⟨[], by simp [h0, pdIsna, pyLeZero, hq]⟩
      · exact ⟨percentStr (q / (dv : ℚ) * 100),
          by simp [h0, pdIsna, pyLeZero, hq, pyNumOf]⟩

/-- On a string amount, calculate_percent_dv raises TypeError whenever the
trimmed key has a reference value: Python cannot compare a string with 0. -/
theorem calculate_percent_dv_str (key s : PyStr) (dv : ℕ)
    (hd : DAILY_VALUES (pyStrip key) = some dv) :
    calculate_percent_dv key (.str s) = .error .typeError := by
  have h0 := DAILY_VALUES_ne_zero _ _ hd
  unfold calculate_percent_dv
  rw [hd]
  simp [h0, pdIsna, pyLeZero]

/-- Counterexample to claim C6: the malformed record value "abc" is
formatted by format_value as the string itself (Python str(value)), not as
"0", and calculate_percent_dv raises TypeError on it for a key with a
reference value, so the renderer's row loop can raise on malformed data. -/
theorem malformed_value_counterexample :
    format_value (.str "abc".toList) = "abc".toList ∧
    "abc".toList ≠ "0".toList ∧
    calculate_percent_dv "Sodium(mg)".toList (.str "abc".toList) = .error .typeError ∧
    rowFor [("Sodium(mg)".toList, .str "abc".toList)] "Sodium(mg)".toList =
      .error .typeError :=
  ⟨by decide, by decide, by decide, by decide⟩

/-- Claim C6 amended: a malformed (string) record value formats through
format_value as the string itself; calculate_percent_dv raises TypeError on
it when the trimmed key has a reference value and returns the empty string
when it has none; absent (NaN) amounts do format as "0" and as the empty
string. -/
theorem malformed_value_behavior (s key : PyStr) :
    format_value (.str s) = s ∧
    ((∃ dv, DAILY_VALUES (pyStrip key) = some dv) →
      calculate_percent_dv key (.str s) = .error .typeError) ∧
    (DAILY_VALUES (pyStrip key) = none →
      calculate_percent_dv key (.str s) = .ok []) ∧
    format_value .nan = "0".toList ∧
    calculate_percent_dv key .nan = .ok [] := by
  refine ⟨?_, ?_, ?_, rfl, calculate_percent_dv_nan key⟩
  · simp [format_value, pdIsna, pyEqZero]
  · rintro ⟨dv, hd⟩
    exact calculate_percent_dv_str key s dv hd
  · intro hd
    unfold calculate_percent_dv
    rw [hd]

/-- Witness for C6 amended at the value "abc" and the key "Sodium(mg)". -/
theorem malformed_value_behavior_witness :
    format_value (.str "abc".toList) = "abc".toList ∧
    calculate_percent_dv "Sodium(mg)".toList (.str "abc".toList) =
      .error .typeError :=
  ⟨(malformed_value_behavior "abc".toList "Sodium(mg)".toList).1,
   (malformed_value_behavior "abc".toList "Sodium(mg)".toList).2.1
     ⟨2300, by decide⟩⟩

/-- Claim C2: calculate_percent_dv agrees with the spec's percentDailyValue
contract on every key and every numeric-or-absent amount: the empty string
exactly when the trimmed key has no reference value or the amount is absent
or nonpositive; otherwise "<1%" when amount / reference * 100 is below one,
else that percentage rounded (half to even) with a trailing percent sign. -/
theorem calculate_percent_dv_eq_spec (key : PyStr) (amount : Option ℚ) :
    calculate_percent_dv key (ofOpt amount) =
      .ok (percentDailyValue_spec key amount) := by
  unfold calculate_percent_dv percentDailyValue_spec
  cases hd : DAILY_VALUES (pyStrip key) with
  | none => cases amount <;> rfl
  | some dv =>
    have h0 : dv ≠ 0 := DAILY_VALUES_ne_zero _ _ hd
    cases amount with
    | none => simp [ofOpt, pdIsna, h0]
    | some a =>
      by_cases ha : a ≤ 0
      · simp [ofOpt, pdIsna, pyLeZero, h0, ha]
      · simp [ofOpt, pdIsna, pyLeZero, pyNumOf, h0, ha, percentStr]

/-- The string has no trailing zero after a decimal point: if it contains a
decimal point at all, its last character is not the digit zero. -/
def noTrailingZeroAfterDot (s : PyStr) : Prop :=
  '.' ∈ s → s.getLast? ≠ some '0'

/-- Nat.digitChar yields a digit character on inputs below ten. -/
theorem digitChar_isDigit (n : ℕ) (h : n < 10) :
    (Nat.digitChar n).isDigit = true := by
  interval_cases n <;> decide

/-- Below ten, Nat.digitChar yields the character zero only at zero. -/
theorem digitChar_eq_zero_iff (n : ℕ) (h : n < 10) :
    Nat.digitChar n = '0' ↔ n = 0 := by
  interval_cases n <;> decide

/-- natCharsAux is nonempty and consists of digits when the fuel exceeds the
input. -/
theorem natCharsAux_spec (fuel : ℕ) : ∀ n : ℕ, n < fuel →
    natCharsAux fuel n ≠ [] ∧ ∀ c ∈ natCharsAux fuel n, c.isDigit = true := by
  induction fuel with
  | zero => intro n h; omega
  | succ f ih =>
    intro n h
    by_cases h10 : n < 10
    · refine ⟨by simp [natCharsAux, h10], ?_⟩
      intro c hc
      simp only [natCharsAux, if_pos h10, List.mem_singleton] at hc
      subst hc
      exact digitChar_isDigit n h10
    · have hdiv : n / 10 < f := by
        have := Nat.div_lt_self (show 0 < n by omega) (show (1:ℕ) < 10 by omega)
        omega
      obtain ⟨hne, hdig⟩ := ih (n / 10) hdiv
      simp only [natCharsAux, if_neg h10]
      refine ⟨by simp [hne], ?_⟩
      intro c hc
      rcases List.mem_append.mp hc with h1 | h1
      · exact hdig c h1
      · rw [List.mem_singleton] at h1
        subst h1
        exact digitChar_isDigit _ (Nat.mod_lt _ (by omega))

/-- The decimal digit string of a natural number is nonempty. -/
theorem natChars_ne_nil (n : ℕ) : natChars n ≠ [] :=
  (natCharsAux_spec (n + 1) n (by omega)).1

/-- Every character of natChars is a digit. -/
theorem natChars_digits (n : ℕ) : ∀ c ∈ natChars n, c.isDigit = true :=
  (natCharsAux_spec (n + 1) n (by omega)).2

/-- Single digits print as one character. -/
theorem natChars_single (n : ℕ) (h : n < 10) :
    natChars n = [Nat.digitChar n] := by
  simp [natChars, natCharsAux, h]

/-- The decimal point is not a character of any integer string. -/
theorem dot_not_mem_intChars (i : ℤ) : '.' ∉ intChars i := by
  unfold intChars
  have hdig := natChars_digits i.natAbs
  split_ifs with hi
  · intro hmem
    rcases List.mem_cons.mp hmem with h1 | h1
    · exact absurd h1 (by decide)
    · exact absurd (hdig _ h1) (by decide)
  · intro hmem
    exact absurd (hdig _ hmem) (by decide)

/-- pyRstrip does not touch a string ending in a different character. -/
theorem pyRstrip_last_ne (s : PyStr) (x c : Char) (h : x ≠ c) :
    pyRstrip (s ++ [x]) c = s ++ [x] := by
  unfold pyRstrip
  rw [List.reverse_append]
  simp [List.dropWhile_cons, h]

/-- pyRstrip removes a single trailing copy of c that is guarded by a
different character before it. -/
theorem pyRstrip_drop_one (s : PyStr) (x c : Char) (h : x ≠ c) :
    pyRstrip (s ++ [x, c]) c = s ++ [x] := by
  unfold pyRstrip
  have hsplit : s ++ [x, c] = (s ++ [x]) ++ [c] := by simp
  rw [hsplit, List.reverse_append, List.reverse_append]
  simp [List.dropWhile_cons, h]

/-- Truncation toward zero is the identity on integers. -/
theorem pyIntTrunc_intCast (n : ℤ) : pyIntTrunc (n : ℚ) = n := by
  unfold pyIntTrunc
  split_ifs <;> simp

/-- On a rational with denominator one, truncation yields the numerator. -/
theorem pyIntTrunc_eq_num (q : ℚ) (hden : q.den = 1) :
    pyIntTrunc q = q.num := by
  have hq : (q.num : ℚ) = q := Rat.coe_int_num_of_den_eq_one hden
  have h2 : pyIntTrunc ((q.num : ℚ)) = q.num := pyIntTrunc_intCast q.num
  rwa [hq] at h2

/-- The whole-number test of format_value holds exactly on denominator one. -/
theorem whole_iff (q : ℚ) : q = (pyIntTrunc q : ℚ) ↔ q.den = 1 := by
  constructor
  · intro h
    rw [h, Rat.den_intCast]
  · intro h
    rw [pyIntTrunc_eq_num q h, Rat.coe_int_num_of_den_eq_one h]

/-- After the two strips of format_value, the one-decimal rendering of any
amount never ends in the digit zero while still containing a decimal
point. -/
theorem fmtOneDec_stripped (q : ℚ) :
    noTrailingZeroAfterDot (pyRstrip (pyRstrip (fmtOneDec q) '0') '.') := by
  unfold fmtOneDec noTrailingZeroAfterDot
  have hd10 : (rhte (q * 10)).natAbs % 10 < 10 := Nat.mod_lt _ (by omega)
  rcases List.eq_nil_or_concat' (natChars ((rhte (q * 10)).natAbs / 10)) with
    hA | ⟨A', a, hA⟩
  · exact absurd hA (natChars_ne_nil _)
  · have ha_digit : a.isDigit = true := by
      apply natChars_digits ((rhte (q * 10)).natAbs / 10) a
      rw [hA]
      exact List.mem_append_right _ (List.mem_singleton_self a)
    have ha_ne_dot : a ≠ '.' := fun h => absurd (h ▸ ha_digit) (by decide)
    by_cases hd0 : (rhte (q * 10)).natAbs % 10 = 0
    · rw [hd0, natChars_single 0 (by omega)]
      have hshape : (if q < 0 then ['-'] else []) ++
          natChars ((rhte (q * 10)).natAbs / 10) ++ '.' :: [Nat.digitChar 0] =
          ((if q < 0 then ['-'] else []) ++ natChars ((rhte (q * 10)).natAbs / 10))
            ++ ['.', '0'] := by simp [Nat.digitChar]
      rw [hshape, pyRstrip_drop_one _ '.' '0' (by decide)]
      have hshape2 : ((if q < 0 then ['-'] else []) ++
          natChars ((rhte (q * 10)).natAbs / 10)) ++ ['.'] =
          ((if q < 0 then ['-'] else []) ++ A') ++ [a, '.'] := by
        rw [hA]; simp
      rw [hshape2, pyRstrip_drop_one _ a '.' ha_ne_dot]
      intro hdot
      exfalso
      rcases List.mem_append.mp hdot with h1 | h1
      · rcases List.mem_append.mp h1 with h2 | h2
        · split_ifs at h2 <;> simp_all
        · have hdot2 := natChars_digits ((rhte (q * 10)).natAbs / 10) '.'
            (by rw [hA]; exact List.mem_append_left _ h2)
          exact absurd hdot2 (by decide)
      · rw [List.mem_singleton] at h1
        exact ha_ne_dot h1.symm
    · rw [natChars_single _ hd10]
      have hdig := digitChar_isDigit _ hd10
      have hne0 : Nat.digitChar ((rhte (q * 10)).natAbs % 10) ≠ '0' :=
        fun h => hd0 ((digitChar_eq_zero_iff _ hd10).mp h)
      have hne_dot : Nat.digitChar ((rhte (q * 10)).natAbs % 10) ≠ '.' :=
        fun h => absurd (h ▸ hdig) (by decide)
      have hshape : (if q < 0 then ['-'] else []) ++
          natChars ((rhte (q * 10)).natAbs / 10) ++
            '.' :: [Nat.digitChar ((rhte (q * 10)).natAbs % 10)] =
          ((if q < 0 then ['-'] else []) ++
            natChars ((rhte (q * 10)).natAbs / 10) ++ ['.'])
            ++ [Nat.digitChar ((rhte (q * 10)).natAbs % 10)] := by simp
      rw [hshape, pyRstrip_last_ne _ _ '0' hne0, pyRstrip_last_ne _ _ '.' hne_dot]
      intro _
      rw [List.getLast?_append_cons,
        show ([Nat.digitChar ((rhte (q * 10)).natAbs % 10)]).getLast? =
          some (Nat.digitChar ((rhte (q * 10)).natAbs % 10)) from rfl]
      intro hcontra
      exact hne0 (by injection hcontra)

/-- Claim C3: format_value returns "0" for an absent (NaN) amount and for
the amount zero; a whole-number amount prints as its integer decimal
string; a non-whole amount prints rounded to one decimal place with the
trailing zero and then a trailing decimal point stripped; consequently no
numeric amount ever formats with a trailing zero after a decimal point. -/
theorem format_value_spec :
    format_value .nan = "0".toList ∧
    format_value (.num 0) = "0".toList ∧
    (∀ q : ℚ, q.den = 1 → format_value (.num q) = intChars q.num) ∧
    (∀ q : ℚ, q.den ≠ 1 →
      format_value (.num q) = pyRstrip (pyRstrip (fmtOneDec q) '0') '.') ∧
    (∀ q : ℚ, noTrailingZeroAfterDot (format_value (.num q))) := by
  have hred : ∀ q : ℚ, q ≠ 0 → format_value (.num q) =
      if q = (pyIntTrunc q : ℚ) then intChars (pyIntTrunc q)
      else pyRstrip (pyRstrip (fmtOneDec q) '0') '.' := by
    intro q h0
    simp [format_value, pdIsna, pyEqZero, h0]
  have hwhole : ∀ q : ℚ, q.den = 1 → format_value (.num q) = intChars q.num := by
    intro q hden
    by_cases h0 : q = 0
    · subst h0; decide
    · have htr : q = (pyIntTrunc q : ℚ) := (whole_iff q).mpr hden
      rw [hred q h0, if_pos htr, pyIntTrunc_eq_num q hden]
  have hnotwhole : ∀ q : ℚ, q.den ≠ 1 →
      format_value (.num q) = pyRstrip (pyRstrip (fmtOneDec q) '0') '.' := by
    intro q hden
    have h0 : q ≠ 0 := fun h => hden (by rw [h]; rfl)
    have htr : ¬ q = (pyIntTrunc q : ℚ) := fun h => hden ((whole_iff q).mp h)
    rw [hred q h0, if_neg htr]
  refine ⟨rfl, by decide, hwhole, hnotwhole, ?_⟩
  intro q
  by_cases hden : q.den = 1
  · rw [hwhole q hden]
    intro hdot
    exact absurd hdot (dot_not_mem_intChars _)
  · rw [hnotwhole q hden]
    exact fmtOneDec_stripped q

/-- Witness for C3 at the whole amount three. -/
theorem format_value_spec_witness :
    format_value (.num 3) = intChars (3 : ℚ).num :=
  format_value_spec.2.2.1 3 (by decide)

/-- A record whose stored values are all numbers or NaN (no strings). -/
def NumericRecord (data : Record) : Prop :=
  ∀ k v, (k, v) ∈ data → v = .nan ∨ ∃ q : ℚ, v = .num q

/-- Counterexample to claim C5: a record in which the key "Total Fat" is
present but bound to NaN; the row loop skips the row although the key is
present, so present-if-and-only-if-rendered fails. -/
theorem nan_row_skipped_counterexample :
    pyLookup [("Total Fat".toList, PyVal.nan)] "Total Fat".toList =
      some .nan ∧
    rowFor [("Total Fat".toList, PyVal.nan)] "Total Fat".toList = .ok none :=
  ⟨by decide, by decide⟩

/-- Claim C5 amended: for a record whose stored values are numeric or NaN, a
row of the fixed order is skipped if and only if its key is absent from the
record or bound to NaN; a key present with the numeric amount zero is
rendered, with formatted value "0". -/
theorem row_skipped_iff (data : Record) (nutrient : PyStr)
    (hmem : nutrient ∈ nutrient_order) (hnum : NumericRecord data) :
    (rowFor data nutrient = .ok none ↔
      pyLookup data nutrient = none ∨ pyLookup data nutrient = some .nan) ∧
    (pyLookup data nutrient = some (.num 0) →
      ∃ row, rowFor data nutrient = .ok (some row) ∧
        row.valStr = "0".toList) := by
  constructor
  · cases hl : pyLookup data nutrient with
    | none => simp [rowFor, hl]
    | some v =>
      rcases hnum _ _ (pyLookup_mem _ _ _ hl) with rfl | ⟨q, rfl⟩
      · simp [rowFor, hl, pdIsna]
      · obtain ⟨r, hr⟩ := calculate_percent_dv_num_ok nutrient q
        simp [rowFor, hl, pdIsna, hr]
  · intro hl
    obtain ⟨r, hr⟩ := calculate_percent_dv_num_ok nutrient 0
    refine ⟨⟨pyReplace nutrient "(mg)".toList [] ++ ' ' ::
        (format_value (.num 0) ++ unitFor nutrient), format_value (.num 0), r⟩,
      ?_, (by decide : format_value (PyVal.num 0) = "0".toList)⟩
    simp [rowFor, hl, pdIsna, hr]

/-- A word produced by Python str.split: nonempty with no whitespace. -/
def Word (w : PyStr) : Prop :=
  w ≠ [] ∧ ∀ c ∈ w, c.isWhitespace = false

/-- A nonempty string with non-whitespace first and last characters, the
shape of every line the wrap loop accumulates. -/
def Chunk (cs : PyStr) : Prop :=
  cs ≠ [] ∧ (∀ c, cs.head? = some c → c.isWhitespace = false) ∧
    (∀ c, cs.getLast? = some c → c.isWhitespace = false)

/-- Words joined by single spaces, as the wrap loop builds its lines. -/
def joinW : List PyStr → PyStr
  | [] => []
  | [w] => w
  | w :: ws => w ++ ' ' :: joinW ws

/-- dropWhile keeps a list whose head fails the predicate. -/
theorem dropWhile_cons_false (p : Char → Bool) (c : Char) (l : List Char)
    (h : p c = false) : (c :: l).dropWhile p = c :: l := by
  simp [List.dropWhile_cons, h]

/-- pyStrip leaves a Chunk unchanged. -/
theorem pyStrip_chunk (cs : PyStr) (h : Chunk cs) : pyStrip cs = cs := by
  obtain ⟨hne, hhead, hlast⟩ := h
  have h1 : cs.dropWhile Char.isWhitespace = cs := by
    cases cs with
    | nil => rfl
    | cons c l => exact dropWhile_cons_false _ _ _ (hhead c rfl)
  unfold pyStrip
  rw [h1]
  rcases List.eq_nil_or_concat' cs with hn | ⟨L, b, hL⟩
  · exact absurd hn hne
  · have hb : b.isWhitespace = false := by
      apply hlast
      rw [hL, List.getLast?_append_cons]
      rfl
    rw [hL, List.reverse_append]
    simp only [List.reverse_cons, List.reverse_nil, List.nil_append,
      List.singleton_append]
    rw [dropWhile_cons_false _ _ _ hb]
    simp

/-- Every word is a Chunk. -/
theorem word_chunk (w : PyStr) (hw : Word w) : Chunk w :=
  ⟨hw.1,
   fun c hc => hw.2 c (List.mem_of_mem_head? hc),
   fun c hc => hw.2 c (List.mem_of_mem_getLast? hc)⟩

/-- pyStrip drops a single leading space. -/
theorem pyStrip_cons_space (t : PyStr) : pyStrip (' ' :: t) = pyStrip t := by
  unfold pyStrip
  rw [List.dropWhile_cons, if_pos (by decide)]

/-- Joining a nonempty line with one more word appends a space and the
word. -/
theorem joinW_append_word (ws : List PyStr) (w : PyStr) (hne : ws ≠ []) :
    joinW (ws ++ [w]) = joinW ws ++ ' ' :: w := by
  induction ws with
  | nil => exact absurd rfl hne
  | cons x ws ih =>
    cases ws with
    | nil => rfl
    | cons y ws' =>
      show x ++ ' ' :: joinW ((y :: ws') ++ [w]) =
        (x ++ ' ' :: joinW (y :: ws')) ++ ' ' :: w
      rw [ih (by simp)]
      simp

/-- A join of words is a Chunk when the word list is nonempty. -/
theorem joinW_chunk : ∀ (ws : List PyStr), ws ≠ [] → (∀ w ∈ ws, Word w) →
    Chunk (joinW ws) := by
  intro ws
  induction ws with
  | nil => intro h; exact absurd rfl h
  | cons w ws ih =>
    intro _ hw
    cases ws with
    | nil => exact word_chunk w (hw w (List.mem_cons_self _ _))
    | cons y ws' =>
      have hwword := hw w (List.mem_cons_self _ _)
      obtain ⟨hne2, hhead2, hlast2⟩ := ih (by simp)
        (fun u hu => hw u (List.mem_cons_of_mem _ hu))
      refine ⟨by simp [joinW, hwword.1], ?_, ?_⟩
      · intro c hc
        show c.isWhitespace = false
        apply hwword.2
        have : (w ++ ' ' :: joinW (y :: ws')).head? = w.head? := by
          cases hwn : w with
          | nil => exact absurd hwn hwword.1
          | cons a t => rfl
        rw [show joinW (w :: y :: ws') = w ++ ' ' :: joinW (y :: ws') from rfl,
          this] at hc
        exact List.mem_of_mem_head? hc
      · intro c hc
        rcases List.eq_nil_or_concat' (joinW (y :: ws')) with hn | ⟨L, b, hL⟩
        · exact absurd hn hne2
        · rw [show joinW (w :: y :: ws') = w ++ ' ' :: joinW (y :: ws') from rfl,
            hL] at hc
          rw [show w ++ ' ' :: (L ++ [b]) = (w ++ ' ' :: L) ++ [b] by simp] at hc
          rw [List.getLast?_append_cons] at hc
          apply hlast2
          rw [hL, List.getLast?_append_cons]
          exact hc

/-- pySplit produces only words when started with a whitespace-free
accumulator. -/
theorem pySplitAux_words : ∀ (s : List Char) (cur : List Char),
    (∀ c ∈ cur, c.isWhitespace = false) →
    ∀ w ∈ pySplitAux s cur, Word w := by
  intro s
  induction s with
  | nil =>
    intro cur hcur w hw
    by_cases h : cur = []
    · simp [pySplitAux, h] at hw
    · simp only [pySplitAux, if_neg h, List.mem_singleton] at hw
      subst hw
      refine ⟨by simpa using h, ?_⟩
      intro c hc
      exact hcur c (by simpa using hc)
  | cons c cs ih =>
    intro cur hcur w hw
    by_cases hws : c.isWhitespace = true
    · by_cases hcn : cur = []
      · rw [show pySplitAux (c :: cs) cur = pySplitAux cs [] by
          simp [pySplitAux, hws, hcn]] at hw
        exact ih [] (by simp) w hw
      · rw [show pySplitAux (c :: cs) cur = cur.reverse :: pySplitAux cs [] by
          simp [pySplitAux, hws, hcn]] at hw
        rcases List.mem_cons.mp hw with rfl | htail
        · refine ⟨by simpa using hcn, ?_⟩
          intro d hd
          exact hcur d (by simpa using hd)
        · exact ih [] (by simp) w htail
    · rw [show pySplitAux (c :: cs) cur = pySplitAux cs (c :: cur) by
        simp [pySplitAux, hws]] at hw
      refine ih (c :: cur) ?_ w hw
      intro d hd
      rcases List.mem_cons.mp hd with rfl | hd2
      · simpa using hws
      · exact hcur d hd2

/-- Every element of pySplit is a word. -/
theorem pySplit_words (s : PyStr) : ∀ w ∈ pySplit s, Word w :=
  pySplitAux_words s [] (by simp)

/-- Scanning a whitespace-free prefix only moves it into the accumulator. -/
theorem pySplitAux_word_scan : ∀ (w rest cur : List Char),
    (∀ c ∈ w, c.isWhitespace = false) →
    pySplitAux (w ++ rest) cur = pySplitAux rest (w.reverse ++ cur) := by
  intro w
  induction w with
  | nil => intro rest cur _; simp
  | cons c w' ih =>
    intro rest cur h
    have hc : c.isWhitespace = false := h c (List.mem_cons_self _ _)
    rw [List.cons_append,
      show pySplitAux (c :: (w' ++ rest)) cur = pySplitAux (w' ++ rest) (c :: cur) by
        simp [pySplitAux, hc],
      ih rest (c :: cur) (fun d hd => h d (List.mem_cons_of_mem _ hd))]
    simp

/-- pySplit recovers the word list from a space-join of words. -/
theorem pySplit_joinW : ∀ (ws : List PyStr), (∀ w ∈ ws, Word w) →
    pySplit (joinW ws) = ws := by
  intro ws
  induction ws with
  | nil => intro _; rfl
  | cons w ws ih =>
    intro hw
    have hwword := hw w (List.mem_cons_self _ _)
    cases ws with
    | nil =>
      show pySplitAux w [] = [w]
      have h1 : pySplitAux (w ++ []) [] = pySplitAux [] (w.reverse ++ []) :=
        pySplitAux_word_scan w [] [] hwword.2
      rw [List.append_nil] at h1
      rw [h1]
      simp [pySplitAux, hwword.1]
    | cons y ws' =>
      show pySplitAux (w ++ ' ' :: joinW (y :: ws')) [] = w :: y :: ws'
      rw [pySplitAux_word_scan w (' ' :: joinW (y :: ws')) [] hwword.2]
      rw [show pySplitAux (' ' :: joinW (y :: ws')) (w.reverse ++ []) =
          (w.reverse ++ []).reverse :: pySplitAux (joinW (y :: ws')) [] by
        simp [pySplitAux, hwword.1]]
      simp only [List.append_nil, List.reverse_reverse]
      exact congrArg (w :: ·) (ih (fun u hu => hw u (List.mem_cons_of_mem _ hu)))

/-- Unfolding of the wrap loop at an empty word list. -/
theorem wrapAux_nil (widthOf : PyStr → ℚ) (maxW : ℚ) (current : PyStr) :
    wrapAux widthOf maxW [] current =
      if current = [] then [] else [current] := rfl

/-- Unfolding of one step of the wrap loop. -/
theorem wrapAux_cons (widthOf : PyStr → ℚ) (maxW : ℚ) (w : PyStr)
    (ws : List PyStr) (current : PyStr) :
    wrapAux widthOf maxW (w :: ws) current =
      if widthOf (pyStrip (current ++ ' ' :: w)) ≤ maxW then
        wrapAux widthOf maxW ws (pyStrip (current ++ ' ' :: w))
      else if current = [] then wrapAux widthOf maxW ws w
      else current :: wrapAux widthOf maxW ws w := rfl

/-- The invariant-carrying specification of the wrap loop: running on the
remaining words ws with a current line joining the accumulated words curWs,
every emitted line either fits maxW or is one of the original words, and
the emitted lines spell out exactly curWs ++ ws in order. -/
theorem wrapAux_spec (widthOf : PyStr → ℚ) (maxW : ℚ) (allW : List PyStr)
    (hallW : ∀ w ∈ allW, Word w) :
    ∀ (ws curWs : List PyStr),
    (∀ w ∈ ws, w ∈ allW) → (∀ w ∈ curWs, w ∈ allW) →
    (curWs ≠ [] → widthOf (joinW curWs) ≤ maxW ∨ ∃ w, curWs = [w]) →
    (∀ line ∈ wrapAux widthOf maxW ws (joinW curWs),
        widthOf line ≤ maxW ∨ line ∈ allW) ∧
    ((wrapAux widthOf maxW ws (joinW curWs)).map pySplit).flatten =
      curWs ++ ws := by
  intro ws
  induction ws with
  | nil =>
    intro curWs hws hcur hinv
    by_cases hc : curWs = []
    · subst hc
      exact ⟨by intro line hline; simp [wrapAux_nil, joinW] at hline,
        by simp [wrapAux_nil, joinW, pySplit]⟩
    · have hcw : ∀ u ∈ curWs, Word u := fun u hu => hallW u (hcur u hu)
      have hchunk := joinW_chunk curWs hc hcw
      have hres : wrapAux widthOf maxW [] (joinW curWs) = [joinW curWs] := by
        rw [wrapAux_nil, if_neg hchunk.1]
      constructor
      · intro line hline
        rw [hres, List.mem_singleton] at hline
        subst hline
        rcases hinv hc with h | ⟨w, hw⟩
        · exact Or.inl h
        · subst hw
          exact Or.inr (hcur w (List.mem_singleton_self w))
      · rw [hres]
        simp [pySplit_joinW curWs hcw]
  | cons w ws ih =>
    intro curWs hws hcur hinv
    have hwall : w ∈ allW := hws w (List.mem_cons_self _ _)
    have hword : Word w := hallW w hwall
    have hwsall : ∀ u ∈ ws, u ∈ allW :=
      fun u hu => hws u (List.mem_cons_of_mem _ hu)
    by_cases hc : curWs = []
    · subst hc
      have htest : pyStrip ((joinW ([] : List PyStr)) ++ ' ' :: w) = w := by
        show pyStrip ([] ++ ' ' :: w) = w
        rw [List.nil_append, pyStrip_cons_space,
          pyStrip_chunk w (word_chunk w hword)]
      have hstep : wrapAux widthOf maxW (w :: ws) (joinW ([] : List PyStr)) =
          wrapAux widthOf maxW ws w := by
        rw [wrapAux_cons, htest]
        split_ifs with h1 h2
        · rfl
        · rfl
        · exact absurd rfl h2
      obtain ⟨ha, hb⟩ := ih [w] hwsall
        (by
          intro u hu
          rw [List.mem_singleton] at hu
          subst hu
          exact hwall)
        (fun _ => Or.inr ⟨w, rfl⟩)
      refine ⟨?_, ?_⟩
      · intro line hline
        rw [hstep] at hline
        exact ha line hline
      · rw [hstep]
        exact hb
    · have hcw : ∀ u ∈ curWs, Word u := fun u hu => hallW u (hcur u hu)
      have hchunk := joinW_chunk curWs hc hcw
      have hchunk2 : Chunk (joinW (curWs ++ [w])) := by
        apply joinW_chunk _ (by simp)
        intro u hu
        rcases List.mem_append.mp hu with h1 | h1
        · exact hcw u h1
        · rw [List.mem_singleton] at h1
          subst h1
          exact hword
      have htest : pyStrip (joinW curWs ++ ' ' :: w) = joinW (curWs ++ [w]) := by
        rw [← joinW_append_word curWs w hc]
        exact pyStrip_chunk _ hchunk2
      by_cases hfit : widthOf (joinW (curWs ++ [w])) ≤ maxW
      · have hstep : wrapAux widthOf maxW (w :: ws) (joinW curWs) =
            wrapAux widthOf maxW ws (joinW (curWs ++ [w])) := by
          rw [wrapAux_cons, htest, if_pos hfit]
        obtain ⟨ha, hb⟩ := ih (curWs ++ [w]) hwsall
          (by
            intro u hu
            rcases List.mem_append.mp hu with h1 | h1
            · exact hcur u h1
            · rw [List.mem_singleton] at h1
              subst h1
              exact hwall)
          (fun _ => Or.inl hfit)
        refine ⟨?_, ?_⟩
        · intro line hline
          rw [hstep] at hline
          exact ha line hline
        · rw [hstep, hb]
          simp
      · have hstep : wrapAux widthOf maxW (w :: ws) (joinW curWs) =
            joinW curWs :: wrapAux widthOf maxW ws w := by
          rw [wrapAux_cons, htest, if_neg hfit, if_neg hchunk.1]
        obtain ⟨ha, hb⟩ := ih [w] hwsall
          (by
            intro u hu
            rw [List.mem_singleton] at hu
            subst hu
            exact hwall)
          (fun _ => Or.inr ⟨w, rfl⟩)
        refine ⟨?_, ?_⟩
        · intro line hline
          rw [hstep] at hline
          rcases List.mem_cons.mp hline with hhead | htail
          · subst hhead
            rcases hinv hc with h | ⟨w₀, hw₀⟩
            · exact Or.inl h
            · subst hw₀
              exact Or.inr (hcur w₀ (List.mem_singleton_self w₀))
          · exact ha line htail
        · rw [hstep]
          simp only [List.map_cons, List.flatten_cons]
          rw [pySplit_joinW curWs hcw]
          have hb2 : ((wrapAux widthOf maxW ws w).map pySplit).flatten =
              [w] ++ ws := hb
          rw [hb2]
          simp

/-- Claim C7: every line produced by wrap_text either fits maxW under the
given measure or is a single word of the original text (so an overlong word
is placed alone on its own line, never split); the lines spell out exactly
the words of the text in their original order; and empty input yields no
lines. -/
theorem wrap_text_spec (widthOf : PyStr → ℚ) (maxW : ℚ) (text : PyStr) :
    (∀ line ∈ wrap_text widthOf text maxW,
        widthOf line ≤ maxW ∨ line ∈ pySplit text) ∧
    ((wrap_text widthOf text maxW).map pySplit).flatten = pySplit text ∧
    (text = [] → wrap_text widthOf text maxW = []) := by
  obtain ⟨ha, hb⟩ := wrapAux_spec widthOf maxW (pySplit text)
    (pySplit_words text) (pySplit text) [] (fun u hu => hu) (by simp)
    (fun h => absurd rfl h)
  refine ⟨?_, ?_, ?_⟩
  · intro line hline
    exact ha line hline
  · simpa using hb
  · intro ht
    subst ht
    rfl

/-- Witness for C7: wrap_text on empty input returns no lines. -/
theorem wrap_text_spec_witness :
    wrap_text (fun s => ((s.length : ℚ))) [] 10 = [] :=
  (wrap_text_spec (fun s => ((s.length : ℚ))) 10 []).2.2 rfl

/-- A NaN required cell is coerced to zero by prepare_data. -/
theorem reqField_nan (parseFloat : PyStr → Option ℚ) (row : PyStr → Option PyVal)
    (k : PyStr) (v : PyVal) (hrow : row k = some v) (hnan : pdIsna v = true) :
    reqField parseFloat row k = .ok 0 := by
  unfold reqField
  rw [hrow]
  simp [hnan]

/-- A successful requiredEntries run binds every listed key to the number
its column's reqField produced. -/
theorem requiredEntries_lookup (parseFloat : PyStr → Option ℚ)
    (row : PyStr → Option PyVal) :
    ∀ (cols : List (PyStr × PyStr)) (req : Record),
    requiredEntries parseFloat row cols = .ok req →
    (cols.map Prod.fst).Nodup →
    ∀ k c, (k, c) ∈ cols →
      ∃ q, reqField parseFloat row c = .ok q ∧
        pyLookup req k = some (.num q) := by
  intro cols
  induction cols with
  | nil => intro req h hnd k c hm; simp at hm
  | cons kc rest ih =>
    intro req h hnd k c hm
    obtain ⟨k₀, c₀⟩ := kc
    simp only [requiredEntries] at h
    cases hq0 : reqField parseFloat row c₀ with
    | error e => rw [hq0] at h; exact absurd h (by simp)
    | ok q₀ =>
      rw [hq0] at h
      cases hrest : requiredEntries parseFloat row rest with
      | error e => rw [hrest] at h; exact absurd h (by simp)
      | ok tail =>
        rw [hrest] at h
        injection h with h
        subst h
        rw [List.map_cons, List.nodup_cons] at hnd
        rcases List.mem_cons.mp hm with hhead | htail
        · injection hhead with h1 h2
          subst h1; subst h2
          exact ⟨q₀, hq0, by simp [pyLookup]⟩
        · have hkne : k₀ ≠ k := by
            intro hcontra
            subst hcontra
            exact hnd.1 (List.mem_map.mpr ⟨(k₀, c), htail, rfl⟩)
          obtain ⟨q, hq, hlook⟩ := ih tail hrest hnd.2 k c htail
          exact ⟨q, hq, by rw [pyLookup_cons_ne _ _ _ _ hkne]; exact hlook⟩

/-- Counterexample to claim C10: prepare_data has eleven required nutrient
keys from Energy through Protein, not twelve. -/
theorem required_keys_eleven :
    requiredNutrientKeys.length = 11 ∧ requiredNutrientKeys.length ≠ 12 := by
  decide

/-- Claim C10 amended: every record built by prepare_data binds each of the
eleven required nutrient keys (Energy through Protein, with the indented
spellings) to a numeric non-NaN value, with a NaN cell coerced to 0, so the
renderer's skip branch cannot fire for a required nutrient of a prepared
record. -/
theorem prepare_data_required_keys (parseFloat : PyStr → Option ℚ)
    (strOf : PyVal → PyStr) (row : PyStr → Option PyVal) (rec : Record)
    (hok : prepare_data parseFloat strOf row = .ok rec) :
    ∀ k c, (k, c) ∈ requiredNutrientColumns →
      (∃ q : ℚ, pyLookup rec k = some (.num q) ∧
        (∀ v, row c = some v → pdIsna v = true → q = 0)) ∧
      rowFor rec k ≠ .ok none := by
  intro k c hm
  unfold prepare_data at hok
  cases hsv : row "Serving Size".toList with
  | none => rw [hsv] at hok; exact absurd hok (by simp)
  | some sv =>
    rw [hsv] at hok
    cases hreq : requiredEntries parseFloat row requiredNutrientColumns with
    | error e => rw [hreq] at hok; exact absurd hok (by simp)
    | ok req =>
      rw [hreq] at hok
      cases hopt : optionalEntries parseFloat row optional_nutrients with
      | error e => rw [hopt] at hok; exact absurd hok (by simp)
      | ok opt =>
        rw [hopt] at hok
        injection hok with hok
        obtain ⟨q, hq, hlook⟩ := requiredEntries_lookup parseFloat row
          requiredNutrientColumns req hreq (by decide) k c hm
        have hkne : "Serving Size".toList ≠ k := by
          have hall : ∀ p ∈ requiredNutrientColumns,
              "Serving Size".toList ≠ p.1 := by decide
          exact hall (k, c) hm
        have hlook2 : pyLookup rec k = some (.num q) := by
          rw [← hok, List.cons_append, List.cons_append,
            pyLookup_cons_ne _ _ _ _ hkne]
          exact pyLookup_append_left _ _ _ _ (pyLookup_append_left _ _ _ _ hlook)
        obtain ⟨r, hr⟩ := calculate_percent_dv_num_ok k q
        refine ⟨⟨q, hlook2, ?_⟩, by simp [rowFor, hlook2, pdIsna, hr]⟩
        intro v hv hnan
        rw [reqField_nan parseFloat row c v hv hnan] at hq
        injection hq with hq
        exact hq.symm

/-- Witness for C10 amended at the Protein key of a concrete row. -/
theorem prepare_data_required_keys_witness :
    (∃ q : ℚ, pyLookup recW "Protein".toList = some (.num q) ∧
      (∀ v, rowW "Protein".toList = some v → pdIsna v = true → q = 0)) ∧
    rowFor recW "Protein".toList ≠ .ok none :=
  prepare_data_required_keys (fun _ => none) (fun _ => []) rowW recW rfl
    "Protein".toList "Protein".toList (by decide)

/-- Witness for C5 amended: the record binding "Total Fat" to the numeric
amount zero renders its row with formatted value "0". -/
theorem row_skipped_iff_witness :
    ∃ row, rowFor [("Total Fat".toList, PyVal.num 0)] "Total Fat".toList =
      .ok (some row) ∧ row.valStr = "0".toList :=
  (row_skipped_iff [("Total Fat".toList, PyVal.num 0)] "Total Fat".toList
    (by decide)
    (by
      rintro k v hm
      rw [List.mem_singleton] at hm
      simp only [Prod.mk.injEq] at hm
      exact Or.inr ⟨0, hm.2⟩)).2 (by decide)
theorem create_batch_labels_total_witness :
    ∃ entries, create_batch_labels (D := Unit) (B := Unit) (fun _ => .ok ())
        (fun _ => .ok ()) (fun _ => .ok ()) .pdf ["A".toList] = some entries ∧
      (entries ≠ [] ↔ ∃ p ∈ ["A".toList], processProduct (D := Unit) (B := Unit)
          (fun _ => .ok ()) (fun _ => .ok ()) (fun _ => .ok ()) .pdf p ≠ []) :=
  create_batch_labels_total _ _ _ _ _
